import Mathlib

/-!
# Verification of the scheduled funds-transfer ledger (`src/lib/fundsTransfer.js`)

Shallow embedding of the module returned by `fundsTransfer.js`.  JavaScript
objects used as dictionaries (`accounts`, `transactions`, `pendingTransactions`,
`completedTransactions`) are embedded as association lists in key-insertion
order, matching JS property enumeration order for string keys.  JS numbers that
the code stores as balances and amounts are embedded as exact rationals (`Rat`);
the `isNaN` guards at creation time exclude NaN from stored records.  JS `Date`
values are embedded as `Option Int` (epoch milliseconds; `none` is an Invalid
Date).  The process time zone is taken to be UTC so that `getUtcNow` and the
local-time getters used by `generateTimeStamp` coincide with UTC time, as on
the reference deployment.  A thrown JS `TypeError` is embedded as an explicit
`crash` result carrying the state at the point of the throw.
-/

/-- Association-list lookup: `obj[k]`, first (and in JS only) binding wins. -/
def alookup {α : Type} (k : String) : List (String × α) → Option α
  | [] => none
  | (k', v) :: rest => if k' = k then some v else alookup k rest

/-- Association-list in-place update of an existing key: `obj[k] = f obj[k]`.
If the key is absent the list is unchanged (callers guard on presence). -/
def aupdate {α : Type} (k : String) (f : α → α) : List (String × α) → List (String × α)
  | [] => []
  | (k', v) :: rest => if k' = k then (k', f v) :: rest else (k', v) :: aupdate k f rest

/-- Association-list assignment `obj[k] = v`: overwrites in place if the key is
present (JS keeps the original insertion position), appends otherwise. -/
def aset {α : Type} (k : String) (v : α) : List (String × α) → List (String × α)
  | [] => [(k, v)]
  | (k', v') :: rest => if k' = k then (k', v) :: rest else (k', v') :: aset k v rest

/-- `formatTimeStampNumber`: `num < 10 ? '0' + num : num` (on a negative number
JS produces e.g. `"0-30"`, which the embedding reproduces). -/
def formatTimeStampNumber (num : Int) : String :=
  if num < 10 then "0" ++ toString num else toString num

/-- Civil-calendar decomposition of a day count relative to 1970-01-01 into
(year, month 1..12, day 1..31), the proleptic Gregorian calendar used by JS
`Date` (ECMA-262 uses floor division throughout, hence `Int.ediv`). -/
def civilFromDays (z0 : Int) : Int × Int × Int :=
  let z := z0 + 719468
  let era : Int := Int.ediv z 146097
  let doe : Int := z - era * 146097
  let yoe : Int := Int.ediv (doe - Int.ediv doe 1460 + Int.ediv doe 36524 - Int.ediv doe 146096) 365
  let y : Int := yoe + era * 400
  let doy : Int := doe - (365 * yoe + Int.ediv yoe 4 - Int.ediv yoe 100)
  let mp : Int := Int.ediv (5 * doy + 2) 153
  let d : Int := doy - Int.ediv (153 * mp + 2) 5 + 1
  let m : Int := mp + (if mp < 10 then 3 else -9)
  (y + (if m ≤ 2 then 1 else 0), m, d)

/-- JS `date.getFullYear()` on a UTC-normalized date. -/
def getFullYear (ms : Int) : Int := (civilFromDays (Int.ediv ms 86400000)).1

/-- JS `date.getMonth()` (0-based) on a UTC-normalized date. -/
def getMonth (ms : Int) : Int := (civilFromDays (Int.ediv ms 86400000)).2.1 - 1

/-- JS `date.getDate()` (day of month) on a UTC-normalized date. -/
def getDate (ms : Int) : Int := (civilFromDays (Int.ediv ms 86400000)).2.2

/-- JS `date.getHours()` on a UTC-normalized date. -/
def getHours (ms : Int) : Int := Int.ediv (Int.emod ms 86400000) 3600000

/-- JS `date.getMinutes()` on a UTC-normalized date. -/
def getMinutes (ms : Int) : Int := Int.emod (Int.ediv (Int.emod ms 86400000) 60000) 60

/-- The minute-resolution bucket-key string built by `generateTimeStamp` for a
valid date: `(year-2000)-(month+1)-day-hour-minute`, each component through
`formatTimeStampNumber`. -/
def timeStampOf (ms : Int) : String :=
  formatTimeStampNumber (getFullYear ms - 2000) ++ "-" ++
  formatTimeStampNumber (getMonth ms + 1) ++ "-" ++
  formatTimeStampNumber (getDate ms) ++ "-" ++
  formatTimeStampNumber (getHours ms) ++ "-" ++
  formatTimeStampNumber (getMinutes ms)

/-- `generateTimeStamp(time)`: `false` (here `none`) on an invalid date, else
the bucket-key string. -/
def generateTimeStamp : Option Int → Option String
  | none => none
  | some ms => some (timeStampOf ms)

/-- Transaction status strings `'pending' | 'completed' | 'rejected'`. -/
inductive TxStatus where
  | pending
  | completed
  | rejected
deriving DecidableEq, Repr

/-- An account record: `{ balance, pastTransactions }`. -/
structure Account where
  balance : Rat
  pastTransactions : List String
deriving DecidableEq, Repr

/-- A transaction record as built by `addTransaction` (the `id` field is the
association-list key and is not duplicated inside the record). -/
structure Txn where
  transactionTime : Int
  type : String
  credit : String
  debit : String
  amount : Rat
  status : TxStatus
  timeStamp : String
deriving DecidableEq, Repr

/-- The module's closure state.  The pending index maps a bucket key to the
ordered list of transaction ids stored under it; the JS code never reads the
record copies stored as the values of that inner object, only its keys, so
only the keys are embedded.  The unused `history` and `failedTransactions`
objects are omitted. -/
structure FTState where
  accounts : List (String × Account)
  transactions : List (String × Txn)
  pendingTransactions : List (String × List String)
  completedTransactions : List (String × List (String × Txn))
deriving DecidableEq, Repr

/-- The ids currently indexed as pending under a bucket key (empty when the
bucket object is absent). -/
def pendingIds (s : FTState) (b : String) : List String :=
  (alookup b s.pendingTransactions).getD []

/-- The status of the main-table record for an id, when the record exists. -/
def txnStatus (s : FTState) (tid : String) : Option TxStatus :=
  (alookup tid s.transactions).map Txn.status

/-- Sum of the balances of all account records. -/
def sumBalances (l : List (String × Account)) : Rat :=
  (l.map (fun p => p.2.balance)).sum

/-- `validateTransaction(transaction)`: the execution-time (financial) check.
`!amount` is JS falsiness of a stored numeric amount, i.e. `amount == 0`
(NaN is excluded from records by the `isNaN` guard in `addTransaction`);
`!credit`/`!debit` is the empty string.  The `isNaN(Number(amount))` branch of
the source cannot fire on a stored rational amount and has no embedded
counterpart. -/
def validateTransaction (accounts : List (String × Account)) : Option Txn → Bool
  | none => false
  | some t =>
    if t.amount = 0 ∨ t.credit = "" ∨ t.debit = "" then false
    else if t.amount < 0 then false
    else
      match alookup t.credit accounts, alookup t.debit accounts with
      | some ca, some _ =>
        if ca.balance < 0 then false
        else if ca.balance - t.amount < 0 then false
        else true
      | _, _ => false

/-- Result of `executeTransaction`: the returned string `COMPLETED`/`ERROR`,
or a thrown `TypeError` (`crash`). -/
inductive ExecRes where
  | completed
  | error
  | crash
deriving DecidableEq, Repr

/-- The account mutations of `executeTransaction` lines 214-224: balance
transfer and `pastTransactions` maintenance.  Line 220 of the source assigns
the debit account the **credit** account's filtered `pastTransactions` list
(as written there), which this embedding reproduces. -/
def applyTransferLists (accounts : List (String × Account)) (transaction : Txn)
    (transactionId : String) : List (String × Account) :=
  -- accounts[credit].balance = accounts[credit].balance - amount
  let a1 := aupdate transaction.credit
    (fun a => { a with balance := a.balance - transaction.amount }) accounts
  -- accounts[debit].balance = accounts[debit].balance + amount
  let a2 := aupdate transaction.debit
    (fun a => { a with balance := a.balance + transaction.amount }) a1
  -- accounts[credit].pastTransactions = accounts[credit].pastTransactions.filter(...)
  let a3 := aupdate transaction.credit
    (fun a => { a with pastTransactions := a.pastTransactions.filter (· ≠ transactionId) }) a2
  -- accounts[debit].pastTransactions = accounts[credit].pastTransactions.filter(...)
  -- (source line 220 reads the credit account here)
  let creditList := ((alookup transaction.credit a3).map Account.pastTransactions).getD []
  let a4 := aupdate transaction.debit
    (fun a => { a with pastTransactions := creditList.filter (· ≠ transactionId) }) a3
  -- accounts[credit].pastTransactions.push(transactionId)
  let a5 := aupdate transaction.credit
    (fun a => { a with pastTransactions := a.pastTransactions ++ [transactionId] }) a4
  -- accounts[debit].pastTransactions.push(transactionId)
  aupdate transaction.debit
    (fun a => { a with pastTransactions := a.pastTransactions ++ [transactionId] }) a5

/-- Lines 230-236 of `executeTransaction`: ensure the completed-index bucket
object exists and store the (now completed) record under the id. -/
def addCompleted (completed : List (String × List (String × Txn))) (transaction : Txn)
    (transactionId : String) : List (String × List (String × Txn)) :=
  let c9 := if (alookup transaction.timeStamp completed).isNone
    then aset transaction.timeStamp [] completed
    else completed
  aupdate transaction.timeStamp
    (aset transactionId { transaction with status := .completed }) c9

/-- `executeTransaction(transactionId)`.  Mirrors the source line by line; the
`delete pendingTransactions[transaction.timeStamp][transactionId]` on line 228
throws (`crash`) when the record's bucket object is absent, with the balance
and status mutations of the preceding lines already applied. -/
def executeTransaction (s : FTState) (transactionId : String) : FTState × ExecRes :=
  if transactionId = "" then (s, .error)
  else
    match alookup transactionId s.transactions with
    | none => (s, .error)
    | some transaction =>
      if validateTransaction s.accounts (some transaction) = false then (s, .error)
      else
        -- transaction.status = COMPLETED (the table record is the mutated object)
        match alookup transaction.timeStamp s.pendingTransactions with
        | none =>
          -- delete pendingTransactions[undefined][transactionId] : TypeError
          ({ s with
              accounts := applyTransferLists s.accounts transaction transactionId,
              transactions := aupdate transactionId (fun t => { t with status := .completed })
                s.transactions }, .crash)
        | some _ =>
          ({ accounts := applyTransferLists s.accounts transaction transactionId,
             transactions := aupdate transactionId (fun t => { t with status := .completed })
               s.transactions,
             pendingTransactions := aupdate transaction.timeStamp
               (fun ids => ids.filter (· ≠ transactionId)) s.pendingTransactions,
             completedTransactions := addCompleted s.completedTransactions transaction
               transactionId }, .completed)

/-- The body of the `Object.keys(...).map` loop of `executeScheduledJobs`,
folded over the key snapshot taken at the start of the pass.  The `Bool`
result is `true` when the loop threw: either `executeTransaction` itself threw,
or the `transactions[transactionId].status = REJECTED` of line 94 dereferenced
a missing record (a `TypeError`, which aborts the rest of the bucket). -/
def runJobs (b : String) : FTState → List String → FTState × Bool
  | s, [] => (s, false)
  | s, transactionId :: rest =>
    match executeTransaction s transactionId with
    | (s1, .crash) => (s1, true)
    | (s1, .completed) => runJobs b s1 rest
    | (s1, .error) =>
      -- delete pendingTransactions[nowTimeStamp][transactionId]
      match alookup b s1.pendingTransactions with
      | none => (s1, true)
      | some _ =>
        let s2 := { s1 with
          pendingTransactions := aupdate b (fun ids => ids.filter (· ≠ transactionId))
            s1.pendingTransactions }
        -- transactions[transactionId].status = REJECTED
        match alookup transactionId s2.transactions with
        | none => (s2, true)
        | some _ =>
          runJobs b { s2 with
            transactions := aupdate transactionId (fun t => { t with status := .rejected })
              s2.transactions } rest

/-- The scheduled-jobs pass for one bucket key: the part of
`executeScheduledJobs` after `nowTimeStamp` has been computed.  Returns the
resulting state and whether the pass threw. -/
def scheduledJobsPass (s : FTState) (b : String) : FTState × Bool :=
  match alookup b s.pendingTransactions with
  | none => (s, false)
  | some ids => runJobs b s ids

/-- `executeScheduledJobs(now)`: computes the bucket key of `now` and runs the
pass for it (an invalid date makes `generateTimeStamp` return `false`, and
`pendingTransactions[false]` is `undefined`, so the pass returns). -/
def executeScheduledJobs (s : FTState) (now : Option Int) : FTState × Bool :=
  match generateTimeStamp now with
  | none => (s, false)
  | some nowTimeStamp => scheduledJobsPass s nowTimeStamp

/-- A raw JS value submitted as the `amount` field, abstracted by its numeric
coercion: `num q` when `Number(v)` is the (exact) number `q`, `nan` when
`Number(v)` is NaN. -/
inductive JSAmount where
  | num (q : Rat)
  | nan
deriving DecidableEq, Repr

/-- A submission request as destructured by `addTransaction`.  The outer
`Option` is the `typeof x === 'undefined'` presence check; for the time field
the inner `Option Int` is the JS `Date` (`none` = Invalid Date). -/
structure TxRequest where
  transactionTime : Option (Option Int)
  type : Option String
  credit : Option String
  debit : Option String
  amount : Option JSAmount
deriving DecidableEq, Repr

/-- Result of `addTransaction`: the returned fresh id, the string `'error'`,
or an exception thrown out of the synchronous immediate-execution pass. -/
inductive AddRes where
  | ok (id : String)
  | error
  | crash
deriving DecidableEq, Repr

/-- The transaction record built by `addTransaction` once all checks have
passed (status PENDING, bucket key derived from the scheduled time; the
`if(!timeStamp)` re-check of the source cannot fire after `isValidDate`). -/
def mkTxnRecord (tms : Int) (type credit debit : String) (q : Rat) : Txn :=
  { transactionTime := tms, type := type, credit := credit, debit := debit,
    amount := q, status := .pending, timeStamp := timeStampOf tms }

/-- Lines 320-325 of `addTransaction`: ensure the pending bucket object exists
and store the new id under it (JS property assignment keeps the position of an
existing key; a fresh `uuidv1` id is never already present). -/
def insertPending (pending : List (String × List String)) (timeStamp freshId : String) :
    List (String × List String) :=
  let p1 := if (alookup timeStamp pending).isNone
    then aset timeStamp [] pending
    else pending
  aupdate timeStamp (fun ids => if freshId ∈ ids then ids else ids ++ [freshId]) p1

/-- The state after `addTransaction` has inserted the new record into the
pending index and the main table (lines 320-326). -/
def insertNewTxn (s : FTState) (newTransaction : Txn) (freshId : String) : FTState :=
  { s with
      pendingTransactions := insertPending s.pendingTransactions newTransaction.timeStamp freshId,
      transactions := aset freshId newTransaction s.transactions }

/-- `addTransaction(transaction)`.  `now` is the value of `getUtcNow()` (epoch
ms, process time zone UTC) and `freshId` the value of `uuidv1()` at this call.
Validation order follows the source: presence of all five fields, valid date,
allowed type, both accounts exist, numeric amount, not in the past; then the
record is inserted into the pending index and the main table, and if the
scheduled bucket is the current bucket the scheduler pass runs synchronously
before the id is returned. -/
def addTransaction (s : FTState) (req : TxRequest) (now : Int) (freshId : String) :
    FTState × AddRes :=
  match req.transactionTime, req.type, req.credit, req.debit, req.amount with
  | some transactionTime, some type, some credit, some debit, some rawAmount =>
    match transactionTime with
    | none => (s, .error)  -- isValidDate failed
    | some tms =>
      if ¬ (type = "refund" ∨ type = "fund") then (s, .error)
      else if (alookup credit s.accounts).isNone ∨ (alookup debit s.accounts).isNone then
        (s, .error)
      else
        match rawAmount with
        | .nan => (s, .error)  -- isNaN(Number(amount))
        | .num q =>
          if now - tms > 0 then (s, .error)  -- transaction time in the past
          else
            -- if it is now, trigger the transaction job execution for the current minute
            if timeStampOf now = timeStampOf tms then
              match scheduledJobsPass (insertNewTxn s (mkTxnRecord tms type credit debit q)
                  freshId) (timeStampOf now) with
              | (s2, true) => (s2, .crash)
              | (s2, false) => (s2, .ok freshId)
            else (insertNewTxn s (mkTxnRecord tms type credit debit q) freshId, .ok freshId)
  | _, _, _, _, _ => (s, .error)

/-- The state set up by `init()`: accounts `A` (balance 100) and `B`
(balance 0), all tables empty.  (The `setInterval` side of `init` only drives
`timeTickCheck`, whose per-bucket effect is `scheduledJobsPass`.) -/
def initState : FTState :=
  { accounts := [("A", { balance := 100, pastTransactions := [] }),
                 ("B", { balance := 0, pastTransactions := [] })],
    transactions := [], pendingTransactions := [], completedTransactions := [] }

/-- One observable step of the exported interface: a submission (with its
ambient clock value and the fresh `uuidv1` id, which is assumed not to collide
with an existing record id), a direct `executeTransaction` call, or one
scheduler pass (as performed by `timeTickCheck` for the current and previous
minute, and by the immediate-execution path). -/
inductive Step : FTState → FTState → Prop where
  | add : ∀ (s : FTState) (req : TxRequest) (now : Int) (freshId : String),
      alookup freshId s.transactions = none →
      Step s (addTransaction s req now freshId).1
  | exec : ∀ (s : FTState) (tid : String), Step s (executeTransaction s tid).1
  | tick : ∀ (s : FTState) (d : Option Int), Step s (executeScheduledJobs s d).1

/-- States reachable from `init()` by the exported operations. -/
def Reachable (s : FTState) : Prop :=
  Relation.ReflTransGen Step initState s

/-- The pending-index consistency invariant of the store, maintained by every
exported operation: every pending-index entry points to an existing record
whose bucket is the one it is indexed under and whose status is PENDING;
every PENDING record is indexed under its bucket; and every record's bucket
object exists in the pending index (bucket objects are created at submission
and never deleted). -/
structure StoreInv (s : FTState) : Prop where
  pend_rec : ∀ b tid, tid ∈ pendingIds s b →
    ∃ r, alookup tid s.transactions = some r ∧ r.timeStamp = b ∧ r.status = .pending
  rec_pend : ∀ tid r, alookup tid s.transactions = some r → r.status = .pending →
    tid ∈ pendingIds s r.timeStamp
  bucket_ex : ∀ tid r, alookup tid s.transactions = some r →
    (alookup r.timeStamp s.pendingTransactions).isSome = true

/-- A transaction id is resolved in a state: its record exists with a terminal
status and the id appears nowhere in the pending index. -/
def ResolvedOut (s : FTState) (tid : String) : Prop :=
  (∃ r, alookup tid s.transactions = some r ∧
    (r.status = .completed ∨ r.status = .rejected)) ∧
  ∀ b, tid ∉ pendingIds s b

/-- Every account id present in the ledger is one of the two accounts seeded
by `init()` (accounts are never created or deleted at runtime). -/
def AccountIdsAB (s : FTState) : Prop :=
  ∀ k, (alookup k s.accounts).isSome = true → k = "A" ∨ k = "B"

/-- A well-formed `FUND` submission request from `c` to `d` of amount `q`
scheduled at epoch-ms `t`. -/
def mkReq (c d : String) (q : Rat) (t : Int) : TxRequest :=
  { transactionTime := some (some t), type := some "fund", credit := some c,
    debit := some d, amount := some (.num q) }

/-- Concrete state for witnesses: accounts `A` (balance 100) and `B`
(balance 0), one pending transaction `t` of amount 10 from `A` to `B`
correctly indexed under its bucket `X`. -/
def stateAB : FTState :=
  { accounts := [("A", { balance := 100, pastTransactions := [] }),
                 ("B", { balance := 0, pastTransactions := [] })],
    transactions := [("t", { transactionTime := 0, type := "fund", credit := "A", debit := "B",
                             amount := 10, status := .pending, timeStamp := "X" })],
    pendingTransactions := [("X", ["t"])], completedTransactions := [] }

/-- The state reached by executing `t` from `stateAB`. -/
def stateAB' : FTState := (executeTransaction stateAB "t").1

/-- Concrete state: a single account `A` with a pending **self**-transfer `t`
(credit = debit = `A`) of amount 10. -/
def stateSelf : FTState :=
  { accounts := [("A", { balance := 100, pastTransactions := [] })],
    transactions := [("t", { transactionTime := 0, type := "fund", credit := "A", debit := "A",
                             amount := 10, status := .pending, timeStamp := "X" })],
    pendingTransactions := [("X", ["t"])], completedTransactions := [] }

/-- Concrete state falsifying the unrestricted double-pass claim: transaction
`t` has bucket `X` in its record but is also indexed under bucket `Y`, so the
pass for `Y` executes it without removing it from `Y`. -/
def stateMis : FTState :=
  { accounts := [("A", { balance := 100, pastTransactions := [] }),
                 ("B", { balance := 0, pastTransactions := [] })],
    transactions := [("t", { transactionTime := 0, type := "fund", credit := "A", debit := "B",
                             amount := 10, status := .pending, timeStamp := "X" })],
    pendingTransactions := [("X", ["t"]), ("Y", ["t"])], completedTransactions := [] }

/-- Concrete state for the debit-list bug: the debit account `B` already has a
prior applied-transaction id `"x"` that a correct append would preserve. -/
def stateC4 : FTState :=
  { accounts := [("A", { balance := 100, pastTransactions := [] }),
                 ("B", { balance := 0, pastTransactions := ["x"] })],
    transactions := [("t", { transactionTime := 0, type := "fund", credit := "A", debit := "B",
                             amount := 10, status := .pending, timeStamp := "X" })],
    pendingTransactions := [("X", ["t"])], completedTransactions := [] }

/-- Concrete state for the tick fault-tolerance claim: bucket `X` holds a
stale entry `"ghost"` with no record in the main table, followed by a valid
pending transaction `t2`. -/
def stateC9 : FTState :=
  { accounts := [("A", { balance := 100, pastTransactions := [] }),
                 ("B", { balance := 0, pastTransactions := [] })],
    transactions := [("t2", { transactionTime := 0, type := "fund", credit := "A", debit := "B",
                              amount := 10, status := .pending, timeStamp := "X" })],
    pendingTransactions := [("X", ["ghost", "t2"])], completedTransactions := [] }

/-- Concrete state for the insufficient-funds claim: pending transaction `t`
of amount 200, exceeding `A`'s balance of 100, correctly indexed under `X`. -/
def stateIns : FTState :=
  { accounts := [("A", { balance := 100, pastTransactions := [] }),
                 ("B", { balance := 0, pastTransactions := [] })],
    transactions := [("t", { transactionTime := 0, type := "fund", credit := "A", debit := "B",
                             amount := 200, status := .pending, timeStamp := "X" })],
    pendingTransactions := [("X", ["t"])], completedTransactions := [] }

/-- Replay trace, step 1: submit `t1` (A→B, 60) scheduled at the current
minute; it executes immediately and completes (A: 100→40). -/
def traceS1 : FTState := (addTransaction initState (mkReq "A" "B" 60 0) 0 "t1").1

/-- Replay trace, step 2: submit `t2` (A→B, 60); A now holds only 40, so the
immediate execution rejects it. -/
def traceS2 : FTState := (addTransaction traceS1 (mkReq "A" "B" 60 0) 0 "t2").1

/-- Replay trace, step 3: submit `t3` (B→A, 60); it completes, restoring
A's balance to 100. -/
def traceS3 : FTState := (addTransaction traceS2 (mkReq "B" "A" 60 0) 0 "t3").1

/-- Replay trace, step 4: call the exported `executeTransaction` directly on
the REJECTED transaction `t2`. -/
def traceS4 : FTState := (executeTransaction traceS3 "t2").1

/-- Bucket-mate scenario, step 1: submit `t0` (A→B, 60) at submission time 0
for the future minute at 60000 ms; it stays PENDING in that bucket. -/
def mateS1 : FTState := (addTransaction initState (mkReq "A" "B" 60 60000) 0 "t0").1

/-- Bucket-mate scenario, step 2: at now = 60000 submit a self-transfer
`tSelf` (A→A, 60 ≤ A's balance 100) for the same (current) bucket; the
immediate pass first executes `t0`, draining A to 40, then rejects `tSelf`. -/
def mateRes : FTState × AddRes := addTransaction mateS1 (mkReq "A" "A" 60 60000) 60000 "tSelf"

/-- The result of a same-bucket self-transfer submission from the initial
state (now = 0, scheduled at 0, amount 10 ≤ 100). -/
def selfOkRes : FTState × AddRes := addTransaction initState (mkReq "A" "A" 10 0) 0 "tS"

/-- A submission request with every field missing. -/
def reqMissing : TxRequest :=
  { transactionTime := none, type := none, credit := none, debit := none, amount := none }

/-- The account record `A` as seeded by `init()`. -/
def accA100 : Account := { balance := 100, pastTransactions := [] }

/-- The account record `B` as seeded by `init()`. -/
def accB0 : Account := { balance := 0, pastTransactions := [] }

/-- The pending record of `stateAB`. -/
def txnAB : Txn :=
  { transactionTime := 0, type := "fund", credit := "A", debit := "B",
    amount := 10, status := .pending, timeStamp := "X" }

/-- The pending record of `stateIns` (amount 200 > balance 100). -/
def txnIns : Txn :=
  { transactionTime := 0, type := "fund", credit := "A", debit := "B",
    amount := 200, status := .pending, timeStamp := "X" }

/-! Section: Association-list lemmas -/

theorem alookup_aupdate_self {α : Type} (k : String) (f : α → α) (l : List (String × α)) :
    alookup k (aupdate k f l) = (alookup k l).map f := by
  induction l with
  | nil => simp [alookup, aupdate]
  | cons p rest ih =>
    obtain ⟨k', v⟩ := p
    by_cases h : k' = k <;> simp [alookup, aupdate, h, ih]

theorem alookup_aupdate_ne {α : Type} {k k' : String} (h : k' ≠ k) (f : α → α)
    (l : List (String × α)) : alookup k' (aupdate k f l) = alookup k' l := by
  induction l with
  | nil => simp [alookup, aupdate]
  | cons p rest ih =>
    obtain ⟨k'', v⟩ := p
    by_cases h1 : k'' = k
    · subst h1
      simp [alookup, aupdate, Ne.symm h]
    · by_cases h2 : k'' = k'
      · subst h2
        simp [alookup, aupdate, h1]
      · simp [alookup, aupdate, h1, h2, ih]

theorem alookup_aset_self {α : Type} (k : String) (v : α) (l : List (String × α)) :
    alookup k (aset k v l) = some v := by
  induction l with
  | nil => simp [alookup, aset]
  | cons p rest ih =>
    obtain ⟨k', v'⟩ := p
    by_cases h : k' = k <;> simp [alookup, aset, h, ih]

theorem alookup_aset_ne {α : Type} {k k' : String} (h : k' ≠ k) (v : α)
    (l : List (String × α)) : alookup k' (aset k v l) = alookup k' l := by
  induction l with
  | nil => simp [alookup, aset, Ne.symm h]
  | cons p rest ih =>
    obtain ⟨k'', v'⟩ := p
    by_cases h1 : k'' = k
    · subst h1
      simp [alookup, aset, Ne.symm h]
    · by_cases h2 : k'' = k'
      · subst h2
        simp [alookup, aset, h1]
      · simp [alookup, aset, h1, h2, ih]

theorem isSome_alookup_aupdate {α : Type} (k k' : String) (f : α → α) (l : List (String × α)) :
    (alookup k' (aupdate k f l)).isSome = (alookup k' l).isSome := by
  by_cases h : k' = k
  · subst h
    rw [alookup_aupdate_self]
    cases alookup k' l <;> simp
  · rw [alookup_aupdate_ne h]

theorem isSome_alookup_aset_of {α : Type} {k k' : String} {v : α} {l : List (String × α)}
    (h : (alookup k' l).isSome = true) : (alookup k' (aset k v l)).isSome = true := by
  by_cases hk : k' = k
  · subst hk
    simp [alookup_aset_self]
  · rwa [alookup_aset_ne hk]

theorem sumBalances_aupdate (k : String) (f : Account → Account) (l : List (String × Account)) :
    sumBalances (aupdate k f l) =
      sumBalances l + (match alookup k l with
        | some a => (f a).balance - a.balance
        | none => 0) := by
  induction l with
  | nil => simp [sumBalances, aupdate, alookup]
  | cons p rest ih =>
    obtain ⟨k', v⟩ := p
    by_cases h : k' = k
    · subst h
      simp only [aupdate, alookup, eq_self_iff_true, if_true, sumBalances, List.map_cons,
        List.sum_cons]
      ring
    · simp only [aupdate, if_neg h, alookup, if_neg h, sumBalances, List.map_cons, List.sum_cons]
      simp only [sumBalances] at ih
      rw [ih]
      cases alookup k rest <;> ring

/-! Section: Shape lemmas for `executeTransaction` -/

theorem exec_error {s s' : FTState} {tid : String}
    (h : executeTransaction s tid = (s', .error)) : s' = s := by
  unfold executeTransaction at h
  split at h
  · exact ((Prod.mk.injEq _ _ _ _).mp h).1.symm
  · split at h
    · exact ((Prod.mk.injEq _ _ _ _).mp h).1.symm
    · split at h
      · exact ((Prod.mk.injEq _ _ _ _).mp h).1.symm
      · split at h <;> simp at h

theorem exec_completed {s s' : FTState} {tid : String}
    (h : executeTransaction s tid = (s', .completed)) :
    ∃ r, alookup tid s.transactions = some r ∧
      validateTransaction s.accounts (some r) = true ∧
      (alookup r.timeStamp s.pendingTransactions).isSome = true ∧
      s' = { accounts := applyTransferLists s.accounts r tid,
             transactions := aupdate tid (fun t => { t with status := TxStatus.completed })
               s.transactions,
             pendingTransactions := aupdate r.timeStamp (fun ids => ids.filter (· ≠ tid))
               s.pendingTransactions,
             completedTransactions := addCompleted s.completedTransactions r tid } := by
  unfold executeTransaction at h
  split at h
  · simp at h
  · split at h
    · simp at h
    · rename_i transaction heq
      split at h
      · simp at h
      · rename_i hval
        split at h
        · simp at h
        · rename_i v hv
          refine ⟨transaction, heq, ?_, ?_, ?_⟩
          · simpa using hval
          · simp [hv]
          · exact ((Prod.mk.injEq _ _ _ _).mp h).1.symm

theorem exec_crash {s s' : FTState} {tid : String}
    (h : executeTransaction s tid = (s', .crash)) :
    ∃ r, alookup tid s.transactions = some r ∧
      alookup r.timeStamp s.pendingTransactions = none ∧
      s' = { s with
              accounts := applyTransferLists s.accounts r tid,
              transactions := aupdate tid (fun t => { t with status := TxStatus.completed })
                s.transactions } := by
  unfold executeTransaction at h
  split at h
  · simp at h
  · split at h
    · simp at h
    · rename_i transaction heq
      split at h
      · simp at h
      · split at h
        · rename_i hnone
          exact ⟨transaction, heq, hnone, ((Prod.mk.injEq _ _ _ _).mp h).1.symm⟩
        · simp at h

/-! Section: Lemmas about the validator and the ledger mutation -/

theorem validate_true_spec {A : List (String × Account)} {t : Txn}
    (h : validateTransaction A (some t) = true) :
    t.credit ≠ "" ∧ t.debit ≠ "" ∧ 0 < t.amount ∧
    ∃ ca da, alookup t.credit A = some ca ∧ alookup t.debit A = some da ∧
      0 ≤ ca.balance - t.amount := by
  simp only [validateTransaction] at h
  split at h
  · simp at h
  · rename_i hdisj
    split at h
    · simp at h
    · rename_i hnlt
      push_neg at hdisj
      obtain ⟨hamt0, hc, hd⟩ := hdisj
      split at h
      · rename_i ca da hca hda
        split at h
        · simp at h
        · split at h
          · simp at h
          · rename_i hb1 hb2
            refine ⟨hc, hd, ?_, ca, da, hca, hda, not_lt.mp hb2⟩
            rcases lt_or_eq_of_le (not_lt.mp hnlt) with hlt | heq0
            · exact hlt
            · exact absurd heq0.symm hamt0
      · simp at h

theorem validate_insufficient {A : List (String × Account)} {t : Txn} {ca : Account}
    (hca : alookup t.credit A = some ca) (hlt : ca.balance < t.amount) :
    validateTransaction A (some t) = false := by
  simp only [validateTransaction]
  split
  · rfl
  · split
    · rfl
    · split
      · rename_i ca' da hca' hda
        rw [hca] at hca'
        obtain rfl : ca = ca' := by injection hca'
        split
        · rfl
        · split
          · rfl
          · rename_i hb2
            exact absurd (sub_neg.mpr hlt) hb2
      · rfl

theorem applyTransferLists_isSome (A : List (String × Account)) (t : Txn) (tid k : String) :
    (alookup k (applyTransferLists A t tid)).isSome = (alookup k A).isSome := by
  simp [applyTransferLists, isSome_alookup_aupdate]

theorem sumBalances_aupdate_past {k : String} {g : Account → List String}
    {l : List (String × Account)} :
    sumBalances (aupdate k (fun a => { a with pastTransactions := g a }) l) = sumBalances l := by
  rw [sumBalances_aupdate]
  cases alookup k l with
  | none => simp
  | some a => simp

theorem sumBalances_aupdate_sub {k : String} {d : Rat} {l : List (String × Account)}
    (hk : (alookup k l).isSome = true) :
    sumBalances (aupdate k (fun a => { a with balance := a.balance - d }) l) =
      sumBalances l - d := by
  rw [sumBalances_aupdate]
  obtain ⟨a, ha⟩ := Option.isSome_iff_exists.mp hk
  simp [ha]
  ring

theorem sumBalances_aupdate_add {k : String} {d : Rat} {l : List (String × Account)}
    (hk : (alookup k l).isSome = true) :
    sumBalances (aupdate k (fun a => { a with balance := a.balance + d }) l) =
      sumBalances l + d := by
  rw [sumBalances_aupdate]
  obtain ⟨a, ha⟩ := Option.isSome_iff_exists.mp hk
  simp [ha]

theorem applyTransferLists_sum {A : List (String × Account)} {t : Txn} {tid : String}
    (hc : (alookup t.credit A).isSome = true) (hd : (alookup t.debit A).isSome = true) :
    sumBalances (applyTransferLists A t tid) = sumBalances A := by
  have hd1 : (alookup t.debit
      (aupdate t.credit (fun a => { a with balance := a.balance - t.amount }) A)).isSome =
      true := by
    rw [isSome_alookup_aupdate]; exact hd
  unfold applyTransferLists
  rw [sumBalances_aupdate_past, sumBalances_aupdate_past, sumBalances_aupdate_past,
    sumBalances_aupdate_past, sumBalances_aupdate_add hd1, sumBalances_aupdate_sub hc]
  ring

theorem applyTransferLists_credit_ne {A : List (String × Account)} {t : Txn} {tid : String}
    {ca : Account} (hcd : t.credit ≠ t.debit) (hca : alookup t.credit A = some ca) :
    (alookup t.credit (applyTransferLists A t tid)).map Account.balance =
      some (ca.balance - t.amount) := by
  simp [applyTransferLists, alookup_aupdate_self, alookup_aupdate_ne hcd, hca]

theorem applyTransferLists_debit_ne {A : List (String × Account)} {t : Txn} {tid : String}
    {da : Account} (hcd : t.credit ≠ t.debit) (hda : alookup t.debit A = some da) :
    (alookup t.debit (applyTransferLists A t tid)).map Account.balance =
      some (da.balance + t.amount) := by
  simp [applyTransferLists, alookup_aupdate_self, alookup_aupdate_ne (Ne.symm hcd), hda]

theorem applyTransferLists_other {A : List (String × Account)} {t : Txn} {tid k : String}
    (hk1 : k ≠ t.credit) (hk2 : k ≠ t.debit) :
    alookup k (applyTransferLists A t tid) = alookup k A := by
  simp [applyTransferLists, alookup_aupdate_ne hk1, alookup_aupdate_ne hk2]

theorem applyTransferLists_self {A : List (String × Account)} {t : Txn} {tid : String}
    {ca : Account} (hcd : t.credit = t.debit) (hca : alookup t.credit A = some ca) :
    (alookup t.credit (applyTransferLists A t tid)).map Account.balance =
      some ca.balance := by
  simp only [applyTransferLists, ← hcd]
  simp [alookup_aupdate_self, hca]

/-! Section: Pending-index membership helpers -/

theorem mem_getD_some {o : Option (List String)} {x : String} (h : x ∈ o.getD []) :
    ∃ ids, o = some ids ∧ x ∈ ids := by
  cases o with
  | none => simp at h
  | some ids => exact ⟨ids, rfl, h⟩

theorem mem_getD_aupdate_filterNe {P : List (String × List String)} {b0 b' x tid : String}
    (h : x ∈ (alookup b' (aupdate b0 (fun ids => ids.filter (· ≠ tid)) P)).getD []) :
    x ∈ (alookup b' P).getD [] ∧ (b' = b0 → x ≠ tid) := by
  by_cases hb : b' = b0
  · subst hb
    rw [alookup_aupdate_self] at h
    rcases ho : alookup b' P with _ | ids
    · rw [ho] at h
      simp at h
    · rw [ho] at h
      simp only [Option.map] at h
      simp only [Option.getD] at h
      rw [List.mem_filter] at h
      exact ⟨by simp [ho, h.1], fun _ => by simpa using h.2⟩
  · rw [alookup_aupdate_ne hb] at h
    exact ⟨h, fun hc => absurd hc hb⟩

theorem mem_getD_aupdate_filterNe_of {P : List (String × List String)} {b0 b' x tid : String}
    (hx : x ∈ (alookup b' P).getD []) (hne : x ≠ tid) :
    x ∈ (alookup b' (aupdate b0 (fun ids => ids.filter (· ≠ tid)) P)).getD [] := by
  by_cases hb : b' = b0
  · subst hb
    obtain ⟨ids, ho, hmem⟩ := mem_getD_some hx
    rw [alookup_aupdate_self, ho]
    simp [List.mem_filter, hmem, hne]
  · rwa [alookup_aupdate_ne hb]

theorem not_mem_getD_aupdate_filterNe {P : List (String × List String)} {b0 b' x tid : String}
    (hx : x ∉ (alookup b' P).getD []) :
    x ∉ (alookup b' (aupdate b0 (fun ids => ids.filter (· ≠ tid)) P)).getD [] :=
  fun hmem => hx (mem_getD_aupdate_filterNe hmem).1

/-! Section: Scheduler-pass lemmas -/

theorem runJobs_nil_eq {b : String} {s s' : FTState} (h : runJobs b s [] = (s', false)) :
    s' = s := by
  simp only [runJobs] at h
  exact ((Prod.mk.injEq _ _ _ _).mp h).1.symm

theorem runJobs_preserves_resolved {b tid : String} :
    ∀ (keys : List String) (s s' : FTState), runJobs b s keys = (s', false) →
      ResolvedOut s tid → ResolvedOut s' tid := by
  intro keys
  induction keys with
  | nil =>
    intro s s' h hr
    rw [runJobs_nil_eq h]
    exact hr
  | cons k rest ih =>
    intro s s' h hr
    obtain ⟨⟨rx, hrx, hterm⟩, hnp⟩ := hr
    simp only [runJobs] at h
    split at h
    · simp at h
    · rename_i s1 heq
      obtain ⟨r, hrec, hval, hsome, rfl⟩ := exec_completed heq
      refine ih _ _ h ⟨?_, ?_⟩
      · by_cases hk : k = tid
        · subst hk
          refine ⟨{ rx with status := .completed }, ?_, Or.inl rfl⟩
          rw [alookup_aupdate_self, hrx]
          rfl
        · refine ⟨rx, ?_, hterm⟩
          dsimp only
          rw [alookup_aupdate_ne (Ne.symm hk)]
          exact hrx
      · intro b' hmem
        simp only [pendingIds] at hmem
        exact absurd (mem_getD_aupdate_filterNe hmem).1 (hnp b')
    · rename_i s1 heq
      have hs1 : s1 = _ := exec_error heq
      subst hs1
      split at h
      · simp at h
      · rename_i ids hids
        split at h
        · simp at h
        · rename_i r hrec
          refine ih _ _ h ⟨?_, ?_⟩
          · by_cases hk : k = tid
            · subst hk
              refine ⟨{ rx with status := .rejected }, ?_, Or.inr rfl⟩
              rw [alookup_aupdate_self, hrx]
              rfl
            · refine ⟨rx, ?_, hterm⟩
              dsimp only
              rw [alookup_aupdate_ne (Ne.symm hk)]
              exact hrx
          · intro b' hmem
            simp only [pendingIds] at hmem
            exact absurd (mem_getD_aupdate_filterNe hmem).1 (hnp b')

theorem runJobs_resolves {b tid : String} :
    ∀ (keys : List String) (s s' : FTState), runJobs b s keys = (s', false) → tid ∈ keys →
      (∃ r, alookup tid s.transactions = some r ∧ r.timeStamp = b) →
      (∀ b', tid ∈ pendingIds s b' → b' = b) →
      ResolvedOut s' tid := by
  intro keys
  induction keys with
  | nil =>
    intro s s' h hmem
    simp at hmem
  | cons k rest ih =>
    intro s s' h hmem hrec hconf
    obtain ⟨r, hr, hts⟩ := hrec
    simp only [runJobs] at h
    split at h
    · simp at h
    · rename_i s1 heq
      obtain ⟨rk, hrk, hval, hsome, rfl⟩ := exec_completed heq
      by_cases hk : k = tid
      · subst hk
        obtain rfl : r = rk := by
          rw [hr] at hrk
          injection hrk
        refine runJobs_preserves_resolved rest _ _ h ⟨?_, ?_⟩
        · refine ⟨{ r with status := .completed }, ?_, Or.inl rfl⟩
          rw [alookup_aupdate_self, hr]
          rfl
        · intro b' hmem'
          simp only [pendingIds] at hmem'
          obtain ⟨hm, himp⟩ := mem_getD_aupdate_filterNe hmem'
          exact absurd rfl (himp ((hconf b' hm).trans hts.symm))
      · refine ih _ _ h ((List.mem_cons.mp hmem).resolve_left fun hh => hk hh.symm) ⟨r, ?_, hts⟩ ?_
        · dsimp only
          rw [alookup_aupdate_ne (Ne.symm hk)]
          exact hr
        · intro b' hmem'
          simp only [pendingIds] at hmem'
          exact hconf b' (mem_getD_aupdate_filterNe hmem').1
    · rename_i s1 heq
      have hs1 : s1 = _ := exec_error heq
      subst hs1
      split at h
      · simp at h
      · rename_i ids hids
        split at h
        · simp at h
        · rename_i rk hrk
          by_cases hk : k = tid
          · subst hk
            refine runJobs_preserves_resolved rest _ _ h ⟨?_, ?_⟩
            · refine ⟨{ rk with status := .rejected }, ?_, Or.inr rfl⟩
              rw [alookup_aupdate_self, hrk]
              rfl
            · intro b' hmem'
              simp only [pendingIds] at hmem'
              obtain ⟨hm, himp⟩ := mem_getD_aupdate_filterNe hmem'
              exact absurd rfl (himp (hconf b' hm))
          · refine ih _ _ h ((List.mem_cons.mp hmem).resolve_left fun hh => hk hh.symm) ⟨r, ?_, hts⟩ ?_
            · dsimp only
              rw [alookup_aupdate_ne (Ne.symm hk)]
              exact hr
            · intro b' hmem'
              simp only [pendingIds] at hmem'
              exact hconf b' (mem_getD_aupdate_filterNe hmem').1

theorem alookup_aupdate_filter_self {P : List (String × List String)} {b k : String}
    (hbp : (alookup b P).isSome = true) :
    alookup b (aupdate b (fun ids => ids.filter (· ≠ k)) P) =
      some (((alookup b P).getD []).filter (· ≠ k)) := by
  obtain ⟨ids, hids⟩ := Option.isSome_iff_exists.mp hbp
  rw [alookup_aupdate_self, hids]
  rfl

theorem filter_ne_filter_not_mem (ids : List String) (k : String) (rest : List String) :
    (ids.filter (· ≠ k)).filter (fun x => decide (x ∉ rest)) =
      ids.filter (fun x => decide (x ∉ k :: rest)) := by
  rw [List.filter_filter]
  apply List.filter_congr
  intro x hx
  by_cases h1 : x = k <;> by_cases h2 : x ∈ rest <;> simp [h1, h2, List.mem_cons]

theorem runJobs_drains {b : String} :
    ∀ (keys : List String) (s : FTState),
      (∀ k ∈ keys, (alookup k s.transactions).map Txn.timeStamp = some b) →
      (alookup b s.pendingTransactions).isSome = true →
      ∃ s', runJobs b s keys = (s', false) ∧
        alookup b s'.pendingTransactions =
          some ((pendingIds s b).filter (fun x => decide (x ∉ keys))) := by
  intro keys
  induction keys with
  | nil =>
    intro s hts hbp
    obtain ⟨ids, hids⟩ := Option.isSome_iff_exists.mp hbp
    refine ⟨s, rfl, ?_⟩
    rw [hids]
    simp [pendingIds, hids]
  | cons k rest ih =>
    intro s hts hbp
    have hkts := hts k (List.mem_cons_self k rest)
    obtain ⟨rk, hrk, hrkts⟩ := Option.map_eq_some'.mp hkts
    rcases hE : executeTransaction s k with ⟨s1, res⟩
    cases res with
    | crash =>
      obtain ⟨rk', hrk', hnone, _⟩ := exec_crash hE
      rw [hrk] at hrk'
      obtain rfl : rk = rk' := by injection hrk'
      rw [hrkts] at hnone
      rw [hnone] at hbp
      simp at hbp
    | completed =>
      obtain ⟨rk', hrk', hval, hsome, rfl⟩ := exec_completed hE
      rw [hrk] at hrk'
      obtain rfl : rk = rk' := by injection hrk'
      rw [hrkts] at hE
      have hts1 : ∀ k' ∈ rest,
          (alookup k' (aupdate k (fun t => { t with status := TxStatus.completed })
            s.transactions)).map Txn.timeStamp = some b := by
        intro k' hk'
        by_cases hkk : k = k'
        · subst hkk
          rw [alookup_aupdate_self, hrk]
          simpa using hrkts
        · rw [alookup_aupdate_ne (Ne.symm hkk)]
          exact hts k' (List.mem_cons_of_mem _ hk')
      have hbp1 : (alookup b (aupdate b (fun ids => ids.filter (· ≠ k))
          s.pendingTransactions)).isSome = true := by
        rw [isSome_alookup_aupdate]
        exact hbp
      obtain ⟨s', hrun, hpend⟩ := ih
        (⟨applyTransferLists s.accounts rk k,
          aupdate k (fun t => { t with status := TxStatus.completed }) s.transactions,
          aupdate b (fun ids => ids.filter (· ≠ k)) s.pendingTransactions,
          addCompleted s.completedTransactions rk k⟩ : FTState) hts1 hbp1
      refine ⟨s', ?_, ?_⟩
      · simp only [runJobs, hE]
        exact hrun
      · rw [hpend]
        simp only [pendingIds]
        rw [alookup_aupdate_filter_self hbp]
        simp only [Option.getD_some]
        rw [filter_ne_filter_not_mem]
    | error =>
      obtain rfl : s = s1 := (exec_error hE).symm
      obtain ⟨ids, hids⟩ := Option.isSome_iff_exists.mp hbp
      have hts1 : ∀ k' ∈ rest,
          (alookup k' (aupdate k (fun t => { t with status := TxStatus.rejected })
            s.transactions)).map Txn.timeStamp = some b := by
        intro k' hk'
        by_cases hkk : k = k'
        · subst hkk
          rw [alookup_aupdate_self, hrk]
          simpa using hrkts
        · rw [alookup_aupdate_ne (Ne.symm hkk)]
          exact hts k' (List.mem_cons_of_mem _ hk')
      have hbp1 : (alookup b (aupdate b (fun ids => ids.filter (· ≠ k))
          s.pendingTransactions)).isSome = true := by
        rw [isSome_alookup_aupdate]
        exact hbp
      obtain ⟨s', hrun, hpend⟩ := ih
        (⟨s.accounts,
          aupdate k (fun t => { t with status := TxStatus.rejected }) s.transactions,
          aupdate b (fun ids => ids.filter (· ≠ k)) s.pendingTransactions,
          s.completedTransactions⟩ : FTState) hts1 hbp1
      refine ⟨s', ?_, ?_⟩
      · simp only [runJobs, hE, hids, hrk]
        exact hrun
      · rw [hpend]
        simp only [pendingIds]
        rw [alookup_aupdate_filter_self hbp]
        simp only [Option.getD_some]
        rw [filter_ne_filter_not_mem]

/-! Section: Claim C6: submission errors mutate nothing -/

/-- C6: whenever `addTransaction` returns its error result (missing field,
invalid time value, disallowed type, unknown credit or debit account,
non-numeric amount, or a scheduled time strictly before now), no transaction
record is created and the entire state — accounts, transactions table,
pending index and completed index — is unchanged. -/
theorem C6_add_error_no_mutation (s s' : FTState) (req : TxRequest) (now : Int)
    (freshId : String) (h : addTransaction s req now freshId = (s', .error)) : s' = s := by
  unfold addTransaction at h
  repeat' split at h
  all_goals
    first
      | exact ((Prod.mk.injEq _ _ _ _).mp h).1.symm
      | simp at h

/-- Witness for C6: a submission with every field missing fails with the error
result and leaves the initial state untouched. -/
theorem C6_add_error_no_mutation_witness :
    (addTransaction initState reqMissing 0 "x").2 = .error ∧
    (addTransaction initState reqMissing 0 "x").1 = initState :=
  ⟨by with_unfolding_all decide,
    C6_add_error_no_mutation initState (addTransaction initState reqMissing 0 "x").1 reqMissing
      0 "x" (by with_unfolding_all decide)⟩

/-! Section: Claim C5: insufficient funds cause rejection without mutation -/

/-- C5: for a pending transaction whose amount exceeds the credit account's
balance at execution time, a direct execution returns the error result with
the state completely unchanged, and the scheduled-jobs pass for a bucket
holding exactly that transaction completes without throwing, leaves every
account balance and applied-transaction list unchanged (the accounts component
is untouched), and sets the transaction's status to REJECTED. -/
theorem C5_insufficient_rejects (s : FTState) (tid : String) (r : Txn) (ca : Account)
    (hr : alookup tid s.transactions = some r) (hst : r.status = .pending)
    (hca : alookup r.credit s.accounts = some ca) (hamt : ca.balance < r.amount) :
    executeTransaction s tid = (s, .error) ∧
    ∀ b, alookup b s.pendingTransactions = some [tid] →
      (scheduledJobsPass s b).2 = false ∧
      (scheduledJobsPass s b).1.accounts = s.accounts ∧
      txnStatus (scheduledJobsPass s b).1 tid = some .rejected := by
  have hexec : executeTransaction s tid = (s, .error) := by
    unfold executeTransaction
    split
    · rfl
    · split
      · rename_i hnone
        rw [hr] at hnone
      · rename_i transaction heq
        rw [hr] at heq
        obtain rfl : r = transaction := by injection heq
        rw [validate_insufficient hca hamt]
        simp
  refine ⟨hexec, fun b hb => ?_⟩
  have hpass : scheduledJobsPass s b =
      ({ accounts := s.accounts,
         transactions := aupdate tid (fun t => { t with status := TxStatus.rejected })
           s.transactions,
         pendingTransactions := aupdate b (fun ids => ids.filter (· ≠ tid))
           s.pendingTransactions,
         completedTransactions := s.completedTransactions }, false) := by
    unfold scheduledJobsPass
    rw [hb]
    simp only [runJobs, hexec, hb, hr]
  rw [hpass]
  refine ⟨rfl, rfl, ?_⟩
  simp only [txnStatus]
  rw [alookup_aupdate_self, hr]
  rfl

/-- Witness for C5: account `A` holds 100 and `t` asks for 200; the direct
execution is a no-op error and the pass for bucket `X` rejects `t`. -/
theorem C5_insufficient_rejects_witness :
    executeTransaction stateIns "t" = (stateIns, .error) ∧
    (scheduledJobsPass stateIns "X").2 = false ∧
    (scheduledJobsPass stateIns "X").1.accounts = stateIns.accounts ∧
    txnStatus (scheduledJobsPass stateIns "X").1 "t" = some .rejected := by
  have h := C5_insufficient_rejects stateIns "t" txnIns accA100
    (by with_unfolding_all decide) (by with_unfolding_all decide)
    (by with_unfolding_all decide) (by with_unfolding_all decide)
  exact ⟨h.1, h.2 "X" (by with_unfolding_all decide)⟩

/-! Section: Claims C3, C4, C9: divergences between the code and the spec -/

/-- C3 (code bug): the status state machine is not terminal under the exported
operations.  Concrete replay: from `init()`, `t1` (A→B, 60) completes, `t2`
(A→B, 60) is REJECTED for insufficient funds, `t3` (B→A, 60) completes and
restores A's balance; a direct call to the exported `executeTransaction` on
the rejected `t2` then re-validates it against the restored balance and flips
its status REJECTED → COMPLETED, transferring the funds again. -/
theorem C3_rejected_to_completed :
    txnStatus traceS2 "t2" = some .rejected ∧
    (executeTransaction traceS3 "t2").2 = .completed ∧
    txnStatus traceS4 "t2" = some .completed ∧
    (alookup "A" traceS4.accounts).map Account.balance = some 40 := by
  with_unfolding_all decide

/-- C4 (code bug): after a successful execution the debit account's
applied-transaction list is overwritten with the credit account's filtered
list (source line 220 reads `accounts[credit]`), so `B`'s prior entry `"x"`
is lost: the claim predicts `["x", "t"]` but the code yields `["t"]`. -/
theorem C4_debit_list_overwritten :
    (executeTransaction stateC4 "t").2 = .completed ∧
    (alookup "B" (executeTransaction stateC4 "t").1.accounts).map Account.pastTransactions =
      some ["t"] ∧
    (alookup "A" (executeTransaction stateC4 "t").1.accounts).map Account.pastTransactions =
      some ["t"] := by
  with_unfolding_all decide

/-- C9 (code bug): a pending-index entry (`"ghost"`) with no record in the
main table makes the pass throw (`transactions[id].status = REJECTED`
dereferences `undefined`): the pass reports a crash, the ghost entry has
already been deleted (a state mutation), and the valid remaining entry `t2`
of the same bucket is left unprocessed (still PENDING and still indexed). -/
theorem C9_ghost_entry_crashes_pass :
    (scheduledJobsPass stateC9 "X").2 = true ∧
    pendingIds (scheduledJobsPass stateC9 "X").1 "X" = ["t2"] ∧
    txnStatus (scheduledJobsPass stateC9 "X").1 "t2" = some .pending := by
  with_unfolding_all decide

/-! Section: Claim C2: double pass for a bucket -/

/-- C2 counterexample (claim quantified over *every* state): in `stateMis` the
record of `t` carries bucket `X` but `t` is also indexed under `Y`; the pass
for `Y` executes `t` yet deletes it only from `X`, so a second pass for `Y`
executes it again: A's balance drops from 90 to 80 — the second pass is not a
no-op on balances. -/
theorem C2_counterexample :
    (alookup "A" (scheduledJobsPass stateMis "Y").1.accounts).map Account.balance = some 90 ∧
    (alookup "A" (scheduledJobsPass (scheduledJobsPass stateMis "Y").1 "Y").1.accounts).map
      Account.balance = some 80 := by
  with_unfolding_all decide

/-- C2 (amended): for every bucket key and every state in which each id
pending under that bucket has a record in the main table whose `timeStamp` is
that bucket (true of every state reachable from `init()`), the scheduled-jobs
pass for the bucket completes without throwing and a second pass for the same
bucket is a no-op on the entire state (in particular on account balances):
each executed transaction is removed from the pending index in the same step
that completes or rejects it. -/
theorem C2_pass_idempotent (s : FTState) (b : String)
    (h : ∀ tid ∈ pendingIds s b, (alookup tid s.transactions).map Txn.timeStamp = some b) :
    (scheduledJobsPass s b).2 = false ∧
    scheduledJobsPass (scheduledJobsPass s b).1 b = ((scheduledJobsPass s b).1, false) := by
  rcases hb : alookup b s.pendingTransactions with _ | ids
  · have h1 : scheduledJobsPass s b = (s, false) := by
      unfold scheduledJobsPass
      rw [hb]
    rw [h1]
    exact ⟨rfl, h1⟩
  · have hkeys : ∀ k ∈ ids, (alookup k s.transactions).map Txn.timeStamp = some b := by
      intro k hk
      exact h k (by simp [pendingIds, hb, hk])
    have hbp : (alookup b s.pendingTransactions).isSome = true := by simp [hb]
    obtain ⟨s', hrun, hpend⟩ := runJobs_drains ids s hkeys hbp
    have hpass : scheduledJobsPass s b = (s', false) := by
      unfold scheduledJobsPass
      rw [hb]
      exact hrun
    have hnil : alookup b s'.pendingTransactions = some [] := by
      rw [hpend]
      have hpi : pendingIds s b = ids := by simp [pendingIds, hb]
      rw [hpi]
      congr 1
      refine List.eq_nil_of_length_eq_zero ?_
      rw [List.length_eq_zero]
      refine (List.filter_eq_nil_iff).mpr ?_
      intro a ha
      simp [ha]
    rw [hpass]
    refine ⟨rfl, ?_⟩
    unfold scheduledJobsPass
    rw [hnil]
    rfl

/-- Witness for C2: in `stateAB` the single pending id `t` is correctly
indexed, so the pass completes and a second pass is the identity. -/
theorem C2_pass_idempotent_witness :
    (scheduledJobsPass stateAB "X").2 = false ∧
    scheduledJobsPass (scheduledJobsPass stateAB "X").1 "X" =
      ((scheduledJobsPass stateAB "X").1, false) :=
  C2_pass_idempotent stateAB "X" (by with_unfolding_all decide)

/-! Section: Claim C1: conservation of the balance sum -/

/-- C1 counterexample: a self-transfer (credit = debit = `A`, amount 10,
balance 100) executes to COMPLETED, but `A`'s balance stays 100 instead of
decreasing by the amount as the claim states. -/
theorem C1_counterexample :
    (executeTransaction stateSelf "t").2 = .completed ∧
    (alookup "A" (executeTransaction stateSelf "t").1.accounts).map Account.balance =
      some 100 := by
  with_unfolding_all decide

/-- C1 (amended): every successful execution conserves the sum of all account
balances; when the credit and debit accounts are distinct, the credit balance
decreases by exactly the amount, the debit balance increases by exactly the
amount, and every other account record is unchanged; when credit = debit (the
case the unamended claim overlooks) that account's balance is unchanged. -/
theorem C1_conservation (s s' : FTState) (tid : String) (r : Txn) (ca da : Account)
    (h : executeTransaction s tid = (s', .completed))
    (hr : alookup tid s.transactions = some r)
    (hca : alookup r.credit s.accounts = some ca)
    (hda : alookup r.debit s.accounts = some da) :
    sumBalances s'.accounts = sumBalances s.accounts ∧
    (r.credit ≠ r.debit →
      (alookup r.credit s'.accounts).map Account.balance = some (ca.balance - r.amount) ∧
      (alookup r.debit s'.accounts).map Account.balance = some (da.balance + r.amount) ∧
      ∀ k, k ≠ r.credit → k ≠ r.debit → alookup k s'.accounts = alookup k s.accounts) ∧
    (r.credit = r.debit →
      (alookup r.credit s'.accounts).map Account.balance = some ca.balance) := by
  obtain ⟨r', hr', hval, hsome, rfl⟩ := exec_completed h
  rw [hr] at hr'
  obtain rfl : r = r' := by injection hr'
  refine ⟨?_, fun hcd => ⟨?_, ?_, fun k hk1 hk2 => ?_⟩, fun hcd => ?_⟩
  · exact applyTransferLists_sum (by simp [hca]) (by simp [hda])
  · exact applyTransferLists_credit_ne hcd hca
  · exact applyTransferLists_debit_ne hcd hda
  · exact applyTransferLists_other hk1 hk2
  · exact applyTransferLists_self hcd hca

/-- Witness for C1: executing `t` (A→B, 10) from `stateAB` conserves the sum
and moves exactly 10 from `A` to `B`. -/
theorem C1_conservation_witness :
    sumBalances stateAB'.accounts = sumBalances stateAB.accounts ∧
    (alookup "A" stateAB'.accounts).map Account.balance =
      some (accA100.balance - txnAB.amount) ∧
    (alookup "B" stateAB'.accounts).map Account.balance =
      some (accB0.balance + txnAB.amount) := by
  have h := C1_conservation stateAB stateAB' "t" txnAB accA100 accB0
    (by with_unfolding_all decide) (by with_unfolding_all decide)
    (by with_unfolding_all decide) (by with_unfolding_all decide)
  have hcd : txnAB.credit ≠ txnAB.debit := by with_unfolding_all decide
  exact ⟨h.1, (h.2.1 hcd).1, (h.2.1 hcd).2.1⟩

/-! Section: Claim C7: immediate execution resolves before return -/

theorem insertPending_self (P : List (String × List String)) (ts fid : String) :
    alookup ts (insertPending P ts fid) =
      some (if fid ∈ (alookup ts P).getD [] then (alookup ts P).getD []
            else (alookup ts P).getD [] ++ [fid]) := by
  unfold insertPending
  rcases h : alookup ts P with _ | ids
  · simp [h, alookup_aupdate_self, alookup_aset_self]
  · simp [h, alookup_aupdate_self]

theorem insertPending_ne {P : List (String × List String)} {ts b fid : String}
    (hne : b ≠ ts) : alookup b (insertPending P ts fid) = alookup b P := by
  unfold insertPending
  split
  · rw [alookup_aupdate_ne hne, alookup_aset_ne hne]
  · rw [alookup_aupdate_ne hne]

/-- C7: for every valid submission whose scheduled time's bucket key equals
the bucket key of now at submission time (and whose fresh `uuidv1` id is not
already indexed as pending), when `addTransaction` returns the new id the
transaction is already resolved: its record's status is terminal (COMPLETED or
REJECTED) and the id is no longer anywhere in the pending index. -/
theorem C7_immediate_resolution (s s' : FTState) (req : TxRequest) (now : Int)
    (freshId : String) (tms : Int)
    (htime : req.transactionTime = some (some tms))
    (hb : timeStampOf tms = timeStampOf now)
    (hfresh : ∀ b, freshId ∉ pendingIds s b)
    (h : addTransaction s req now freshId = (s', .ok freshId)) :
    ResolvedOut s' freshId := by
  obtain ⟨rt, rty, rc, rd, ra⟩ := req
  replace htime : rt = some (some tms) := htime
  subst htime
  cases rty with
  | none => simp [addTransaction] at h
  | some ty =>
  cases rc with
  | none => simp [addTransaction] at h
  | some credit =>
  cases rd with
  | none => simp [addTransaction] at h
  | some debit =>
  cases ra with
  | none => simp [addTransaction] at h
  | some rawAmount =>
  simp only [addTransaction] at h
  split at h
  · simp at h
  · split at h
    · simp at h
    · rename_i hty hacc
      split at h
      · simp at h
      · rename_i q
        split at h
        · simp at h
        · rename_i hpast
          split at h
          · rename_i hnoweq
            split at h
            · simp at h
            · rename_i s2 heqpass
              obtain ⟨hs2, _⟩ := (Prod.mk.injEq _ _ _ _).mp h
              subst hs2
              have hrec : alookup freshId (insertNewTxn s
                  (mkTxnRecord tms ty credit debit q) freshId).transactions =
                  some (mkTxnRecord tms ty credit debit q) := by
                unfold insertNewTxn
                exact alookup_aset_self _ _ _
              have hlook : alookup (timeStampOf now) (insertNewTxn s
                  (mkTxnRecord tms ty credit debit q) freshId).pendingTransactions =
                  some ((alookup (timeStampOf tms) s.pendingTransactions).getD [] ++
                    [freshId]) := by
                rw [hnoweq]
                show alookup (timeStampOf tms)
                  (insertPending s.pendingTransactions (timeStampOf tms) freshId) = _
                rw [insertPending_self]
                rw [if_neg (show freshId ∉
                  (alookup (timeStampOf tms) s.pendingTransactions).getD [] from
                  hfresh (timeStampOf tms))]
              unfold scheduledJobsPass at heqpass
              rw [hlook] at heqpass
              refine runJobs_resolves _ _ _ heqpass (by simp) ⟨mkTxnRecord tms ty credit
                debit q, hrec, hb.symm ▸ rfl⟩ ?_
              intro b' hmem
              by_cases hbb : b' = timeStampOf tms
              · rw [hbb, hb]
              · exfalso
                simp only [pendingIds] at hmem
                unfold insertNewTxn at hmem
                have : alookup b' (insertPending s.pendingTransactions
                    (mkTxnRecord tms ty credit debit q).timeStamp freshId) =
                    alookup b' s.pendingTransactions := insertPending_ne hbb
                rw [this] at hmem
                exact hfresh b' hmem
          · rename_i hnowne
            exact absurd hb.symm hnowne

/-- Witness for C7: submitting A→B (amount 10) at time 0 with now = 0 hits the
current bucket; when the call returns the id, the transaction is resolved. -/
theorem C7_immediate_resolution_witness :
    ResolvedOut (addTransaction initState (mkReq "A" "B" 10 0) 0 "t1").1 "t1" :=
  C7_immediate_resolution initState (addTransaction initState (mkReq "A" "B" 10 0) 0 "t1").1
    (mkReq "A" "B" 10 0) 0 "t1" 0 rfl rfl
    (fun b => by simp [initState, pendingIds, alookup])
    (by with_unfolding_all decide)

/-! Section: The pending-index invariant over reachable states -/

theorem inv_init : StoreInv initState := by
  constructor
  · intro b tid hmem
    simp [initState, pendingIds, alookup] at hmem
  · intro tid r hr
    simp [initState, alookup] at hr
  · intro tid r hr
    simp [initState, alookup] at hr

theorem inv_exec {s : FTState} (hinv : StoreInv s) (tid : String) :
    StoreInv (executeTransaction s tid).1 := by
  rcases hE : executeTransaction s tid with ⟨s1, res⟩
  cases res with
  | error =>
    obtain rfl : s1 = s := exec_error hE
    exact hinv
  | crash =>
    obtain ⟨r, hr, hnone, _⟩ := exec_crash hE
    have := hinv.bucket_ex tid r hr
    rw [hnone] at this
    simp at this
  | completed =>
    obtain ⟨r, hr, hval, hsome, rfl⟩ := exec_completed hE
    constructor
    · intro b x hx
      simp only [pendingIds] at hx
      obtain ⟨hm, himp⟩ := mem_getD_aupdate_filterNe hx
      have hxt : x ≠ tid := by
        intro hxeq
        subst hxeq
        obtain ⟨r2, hr2, hts2, _⟩ := hinv.pend_rec b x hm
        rw [hr] at hr2
        obtain rfl : r = r2 := by injection hr2
        exact himp hts2.symm rfl
      obtain ⟨rx, hrx, hts, hstat⟩ := hinv.pend_rec b x hm
      refine ⟨rx, ?_, hts, hstat⟩
      dsimp only
      rw [alookup_aupdate_ne hxt]
      exact hrx
    · intro x rx hrx hstat
      try dsimp only at hrx
      by_cases hxt : x = tid
      · subst hxt
        rw [alookup_aupdate_self, hr] at hrx
        obtain rfl : { r with status := TxStatus.completed } = rx := by injection hrx
        simp at hstat
      · rw [alookup_aupdate_ne hxt] at hrx
        have hm := hinv.rec_pend x rx hrx hstat
        simp only [pendingIds]
        exact mem_getD_aupdate_filterNe_of hm hxt
    · intro x rx hrx
      try dsimp only at hrx
      dsimp only
      rw [isSome_alookup_aupdate]
      by_cases hxt : x = tid
      · subst hxt
        rw [alookup_aupdate_self, hr] at hrx
        obtain rfl : { r with status := TxStatus.completed } = rx := by injection hrx
        exact hinv.bucket_ex x r hr
      · rw [alookup_aupdate_ne hxt] at hrx
        exact hinv.bucket_ex x rx hrx

theorem inv_reject_step {s : FTState} {b k : String} {r : Txn} (hinv : StoreInv s)
    (hr : alookup k s.transactions = some r) (hts : r.timeStamp = b) :
    StoreInv ⟨s.accounts,
      aupdate k (fun t => { t with status := TxStatus.rejected }) s.transactions,
      aupdate b (fun ids => ids.filter (· ≠ k)) s.pendingTransactions,
      s.completedTransactions⟩ := by
  constructor
  · intro b' x hx
    simp only [pendingIds] at hx
    obtain ⟨hm, himp⟩ := mem_getD_aupdate_filterNe hx
    have hxk : x ≠ k := by
      intro hxeq
      subst hxeq
      obtain ⟨r2, hr2, hts2, _⟩ := hinv.pend_rec b' x hm
      rw [hr] at hr2
      obtain rfl : r = r2 := by injection hr2
      exact himp (hts2.symm.trans hts) rfl
    obtain ⟨rx, hrx, hts', hstat⟩ := hinv.pend_rec b' x hm
    refine ⟨rx, ?_, hts', hstat⟩
    dsimp only
    rw [alookup_aupdate_ne hxk]
    exact hrx
  · intro x rx hrx hstat
    try dsimp only at hrx
    by_cases hxk : x = k
    · subst hxk
      rw [alookup_aupdate_self, hr] at hrx
      obtain rfl : { r with status := TxStatus.rejected } = rx := by injection hrx
      simp at hstat
    · rw [alookup_aupdate_ne hxk] at hrx
      have hm := hinv.rec_pend x rx hrx hstat
      simp only [pendingIds]
      exact mem_getD_aupdate_filterNe_of hm hxk
  · intro x rx hrx
    try dsimp only at hrx
    dsimp only
    rw [isSome_alookup_aupdate]
    by_cases hxk : x = k
    · subst hxk
      rw [alookup_aupdate_self, hr] at hrx
      obtain rfl : { r with status := TxStatus.rejected } = rx := by injection hrx
      exact hinv.bucket_ex x r hr
    · rw [alookup_aupdate_ne hxk] at hrx
      exact hinv.bucket_ex x rx hrx

theorem inv_runJobs {b : String} :
    ∀ (keys : List String) (s : FTState), StoreInv s →
      (∀ k ∈ keys, ∃ r, alookup k s.transactions = some r ∧ r.timeStamp = b) →
      StoreInv (runJobs b s keys).1 := by
  intro keys
  induction keys with
  | nil => intro s hinv _; exact hinv
  | cons k rest ih =>
    intro s hinv hks
    obtain ⟨r, hr, hts⟩ := hks k (List.mem_cons_self k rest)
    rcases hE : executeTransaction s k with ⟨s1, res⟩
    cases res with
    | crash =>
      obtain ⟨r', hr', hnone, _⟩ := exec_crash hE
      have := hinv.bucket_ex k r' hr'
      rw [hnone] at this
      simp at this
    | completed =>
      obtain ⟨r', hr', hval, hsome, rfl⟩ := exec_completed hE
      have hinv1 : StoreInv (executeTransaction s k).1 := inv_exec hinv k
      rw [hE] at hinv1
      have hks1 : ∀ k' ∈ rest, ∃ rr, alookup k' (executeTransaction s k).1.transactions =
          some rr ∧ rr.timeStamp = b := by
        intro k' hk'
        obtain ⟨rr, hrr, hrrts⟩ := hks k' (List.mem_cons_of_mem _ hk')
        rw [hE]
        by_cases hkk : k = k'
        · subst hkk
          refine ⟨{ rr with status := TxStatus.completed }, ?_, hrrts⟩
          dsimp only
          rw [alookup_aupdate_self, hrr]
          rfl
        · refine ⟨rr, ?_, hrrts⟩
          dsimp only
          rw [alookup_aupdate_ne (Ne.symm hkk)]
          exact hrr
      rw [hE] at hks1
      simp only [runJobs, hE]
      exact ih _ hinv1 hks1
    | error =>
      obtain rfl : s = s1 := (exec_error hE).symm
      rcases hpb : alookup b s.pendingTransactions with _ | ids
      · simp only [runJobs, hE, hpb]
        exact hinv
      · simp only [runJobs, hE, hpb, hr]
        refine ih _ (inv_reject_step hinv hr hts) ?_
        intro k' hk'
        obtain ⟨rr, hrr, hrrts⟩ := hks k' (List.mem_cons_of_mem _ hk')
        by_cases hkk : k = k'
        · subst hkk
          refine ⟨{ rr with status := TxStatus.rejected }, ?_, hrrts⟩
          dsimp only
          rw [alookup_aupdate_self, hrr]
          rfl
        · refine ⟨rr, ?_, hrrts⟩
          dsimp only
          rw [alookup_aupdate_ne (Ne.symm hkk)]
          exact hrr

theorem inv_pass {s : FTState} (hinv : StoreInv s) (b : String) :
    StoreInv (scheduledJobsPass s b).1 := by
  unfold scheduledJobsPass
  rcases hpb : alookup b s.pendingTransactions with _ | ids
  · exact hinv
  · refine inv_runJobs ids s hinv ?_
    intro k hk
    obtain ⟨r, hr, hts, _⟩ := hinv.pend_rec b k (by simp [pendingIds, hpb, hk])
    exact ⟨r, hr, hts⟩

theorem inv_execScheduled {s : FTState} (hinv : StoreInv s) (d : Option Int) :
    StoreInv (executeScheduledJobs s d).1 := by
  unfold executeScheduledJobs
  rcases d with _ | ms
  · exact hinv
  · exact inv_pass hinv (timeStampOf ms)

theorem insertPending_isSome_of {P : List (String × List String)} {b ts fid : String}
    (h : (alookup b P).isSome = true) :
    (alookup b (insertPending P ts fid)).isSome = true := by
  by_cases hb : b = ts
  · subst hb
    rw [insertPending_self]
    rfl
  · rw [insertPending_ne hb]
    exact h

theorem inv_insert {s : FTState} (hinv : StoreInv s) (nt : Txn) (fid : String)
    (hfresh : alookup fid s.transactions = none) (hstat : nt.status = .pending) :
    StoreInv (insertNewTxn s nt fid) := by
  have hnp : ∀ b, fid ∉ (alookup b s.pendingTransactions).getD [] := by
    intro b hmem
    obtain ⟨r, hr, _, _⟩ := hinv.pend_rec b fid hmem
    rw [hfresh] at hr
    simp at hr
  have hne_of_mem : ∀ {x : String} {b : String},
      x ∈ (alookup b s.pendingTransactions).getD [] → x ≠ fid := by
    intro x b hx hxe
    subst hxe
    exact hnp b hx
  constructor
  · intro b x hx
    simp only [pendingIds, insertNewTxn] at hx
    by_cases hb : b = nt.timeStamp
    · subst hb
      rw [insertPending_self, if_neg (hnp nt.timeStamp)] at hx
      simp only [Option.getD_some] at hx
      rcases List.mem_append.mp hx with hxo | hxf
      · have hxne : x ≠ fid := hne_of_mem hxo
        obtain ⟨rx, hrx, hts, hst⟩ := hinv.pend_rec nt.timeStamp x hxo
        refine ⟨rx, ?_, hts, hst⟩
        simp only [insertNewTxn]
        rw [alookup_aset_ne hxne]
        exact hrx
      · obtain rfl : x = fid := by simpa using hxf
        refine ⟨nt, ?_, rfl, hstat⟩
        simp only [insertNewTxn]
        exact alookup_aset_self _ _ _
    · rw [insertPending_ne hb] at hx
      have hxne : x ≠ fid := hne_of_mem hx
      obtain ⟨rx, hrx, hts, hst⟩ := hinv.pend_rec b x hx
      refine ⟨rx, ?_, hts, hst⟩
      simp only [insertNewTxn]
      rw [alookup_aset_ne hxne]
      exact hrx
  · intro x rx hrx hst
    simp only [insertNewTxn] at hrx
    simp only [pendingIds, insertNewTxn]
    by_cases hxf : x = fid
    · subst hxf
      rw [alookup_aset_self] at hrx
      obtain rfl : nt = rx := by injection hrx
      rw [insertPending_self, if_neg (hnp nt.timeStamp)]
      simp
    · rw [alookup_aset_ne hxf] at hrx
      have hm := hinv.rec_pend x rx hrx hst
      by_cases hb : rx.timeStamp = nt.timeStamp
      · rw [hb, insertPending_self, if_neg (hnp nt.timeStamp)]
        simp only [Option.getD_some]
        exact List.mem_append_left _ (hb ▸ hm)
      · rw [insertPending_ne hb]
        exact hm
  · intro x rx hrx
    simp only [insertNewTxn] at hrx
    simp only [insertNewTxn]
    by_cases hxf : x = fid
    · subst hxf
      rw [alookup_aset_self] at hrx
      obtain rfl : nt = rx := by injection hrx
      rw [insertPending_self]
      rfl
    · rw [alookup_aset_ne hxf] at hrx
      exact insertPending_isSome_of (hinv.bucket_ex x rx hrx)

theorem inv_add {s : FTState} (hinv : StoreInv s) (req : TxRequest) (now : Int)
    (fid : String) (hfresh : alookup fid s.transactions = none) :
    StoreInv (addTransaction s req now fid).1 := by
  rcases hA : addTransaction s req now fid with ⟨s', res⟩
  obtain ⟨rt, rty, rc, rd, ra⟩ := req
  rcases rt with _ | rt0
  · simp [addTransaction] at hA
    rw [← hA.1]
    exact hinv
  rcases rty with _ | ty
  · simp [addTransaction] at hA
    rw [← hA.1]
    exact hinv
  rcases rc with _ | credit
  · simp [addTransaction] at hA
    rw [← hA.1]
    exact hinv
  rcases rd with _ | debit
  · simp [addTransaction] at hA
    rw [← hA.1]
    exact hinv
  rcases ra with _ | rawAmount
  · simp [addTransaction] at hA
    rw [← hA.1]
    exact hinv
  rcases rt0 with _ | tms
  · simp [addTransaction] at hA
    rw [← hA.1]
    exact hinv
  simp only [addTransaction] at hA
  split at hA
  · obtain rfl : s = s' := ((Prod.mk.injEq _ _ _ _).mp hA).1
    exact hinv
  · split at hA
    · obtain rfl : s = s' := ((Prod.mk.injEq _ _ _ _).mp hA).1
      exact hinv
    · split at hA
      · obtain rfl : s = s' := ((Prod.mk.injEq _ _ _ _).mp hA).1
        exact hinv
      · rename_i q
        split at hA
        · obtain rfl : s = s' := ((Prod.mk.injEq _ _ _ _).mp hA).1
          exact hinv
        · split at hA
          · split at hA
            · rename_i s2 heqpass
              obtain rfl : s2 = s' := ((Prod.mk.injEq _ _ _ _).mp hA).1
              have := inv_pass (inv_insert hinv (mkTxnRecord tms ty credit debit q) fid
                hfresh rfl) (timeStampOf now)
              rw [heqpass] at this
              exact this
            · rename_i s2 heqpass
              obtain rfl : s2 = s' := ((Prod.mk.injEq _ _ _ _).mp hA).1
              have := inv_pass (inv_insert hinv (mkTxnRecord tms ty credit debit q) fid
                hfresh rfl) (timeStampOf now)
              rw [heqpass] at this
              exact this
          · obtain rfl : insertNewTxn s (mkTxnRecord tms ty credit debit q) fid = s' :=
              ((Prod.mk.injEq _ _ _ _).mp hA).1
            exact inv_insert hinv (mkTxnRecord tms ty credit debit q) fid hfresh rfl

theorem reachable_storeInv {s : FTState} (h : Reachable s) : StoreInv s := by
  unfold Reachable at h
  induction h with
  | refl => exact inv_init
  | tail hsteps hstep ih =>
    cases hstep with
    | add req now fid hfresh => exact inv_add ih req now fid hfresh
    | exec tid => exact inv_exec ih tid
    | tick d => exact inv_execScheduled ih d

/-! Section: Claim C8: pending index iff PENDING status -/

/-- C8: in every state reachable from `init()` by the exported operations, a
transaction id appears somewhere in the pending index if and only if the main
table holds a record for it with status PENDING; in particular a COMPLETED or
REJECTED transaction is never re-inserted into the pending index. -/
theorem C8_pending_iff_status (s : FTState) (tid : String) (h : Reachable s) :
    (∃ b, tid ∈ pendingIds s b) ↔ txnStatus s tid = some .pending := by
  have hinv := reachable_storeInv h
  constructor
  · rintro ⟨b, hb⟩
    obtain ⟨r, hr, _, hstat⟩ := hinv.pend_rec b tid hb
    simp [txnStatus, hr, hstat]
  · intro hstat
    obtain ⟨r, hr, hs⟩ := Option.map_eq_some'.mp hstat
    exact ⟨r.timeStamp, hinv.rec_pend tid r hr hs⟩

/-- Witness for C8: the initial state is reachable, and for the id `"x"` both
sides of the equivalence are (vacuously) false. -/
theorem C8_pending_iff_status_witness :
    (∃ b, "x" ∈ pendingIds initState b) ↔ txnStatus initState "x" = some .pending :=
  C8_pending_iff_status initState "x" Relation.ReflTransGen.refl

/-! Section: Account-id stability (no account creation or deletion) -/

theorem accKeys_exec (s : FTState) (tid k : String) :
    (alookup k (executeTransaction s tid).1.accounts).isSome =
      (alookup k s.accounts).isSome := by
  rcases hE : executeTransaction s tid with ⟨s1, res⟩
  cases res with
  | error => rw [exec_error hE]
  | crash =>
    obtain ⟨r, _, _, rfl⟩ := exec_crash hE
    exact applyTransferLists_isSome _ _ _ _
  | completed =>
    obtain ⟨r, _, _, _, rfl⟩ := exec_completed hE
    exact applyTransferLists_isSome _ _ _ _

theorem accKeys_runJobs {b : String} :
    ∀ (keys : List String) (s : FTState) (k : String),
      (alookup k (runJobs b s keys).1.accounts).isSome = (alookup k s.accounts).isSome := by
  intro keys
  induction keys with
  | nil => intro s k; rfl
  | cons j rest ih =>
    intro s k
    rcases hE : executeTransaction s j with ⟨s1, res⟩
    cases res with
    | crash =>
      simp only [runJobs, hE]
      have := accKeys_exec s j k
      rw [hE] at this
      exact this
    | completed =>
      simp only [runJobs, hE]
      rw [ih]
      have := accKeys_exec s j k
      rw [hE] at this
      exact this
    | error =>
      obtain rfl : s = s1 := (exec_error hE).symm
      rcases hpb : alookup b s.pendingTransactions with _ | ids
      · simp only [runJobs, hE, hpb]
      · rcases hrj : alookup j s.transactions with _ | rj
        · simp only [runJobs, hE, hpb, hrj]
        · simp only [runJobs, hE, hpb, hrj]
          rw [ih]

theorem accKeys_pass (s : FTState) (b k : String) :
    (alookup k (scheduledJobsPass s b).1.accounts).isSome = (alookup k s.accounts).isSome := by
  unfold scheduledJobsPass
  rcases hpb : alookup b s.pendingTransactions with _ | ids
  · rfl
  · exact accKeys_runJobs ids s k

theorem accKeys_execScheduled (s : FTState) (d : Option Int) (k : String) :
    (alookup k (executeScheduledJobs s d).1.accounts).isSome =
      (alookup k s.accounts).isSome := by
  unfold executeScheduledJobs
  rcases d with _ | ms
  · rfl
  · exact accKeys_pass s (timeStampOf ms) k

theorem accKeys_add (s : FTState) (req : TxRequest) (now : Int) (fid k : String) :
    (alookup k (addTransaction s req now fid).1.accounts).isSome =
      (alookup k s.accounts).isSome := by
  obtain ⟨rt, rty, rc, rd, ra⟩ := req
  rcases rt with _ | rt0
  · rfl
  rcases rty with _ | ty
  · rfl
  rcases rc with _ | credit
  · rfl
  rcases rd with _ | debit
  · rfl
  rcases ra with _ | rawAmount
  · rfl
  rcases rt0 with _ | tms
  · rfl
  simp only [addTransaction]
  split
  · rfl
  · split
    · rfl
    · split
      · rfl
      · rename_i q
        split
        · rfl
        · split
          · rename_i hique
            rcases hpass : scheduledJobsPass (insertNewTxn s
                (mkTxnRecord tms ty credit debit q) fid) (timeStampOf now) with ⟨s2, c⟩
            have := accKeys_pass (insertNewTxn s (mkTxnRecord tms ty credit debit q) fid)
              (timeStampOf now) k
            rw [hpass] at this
            cases c
            · simp only []
              exact this
            · simp only []
              exact this
          · rfl

/-- In every reachable state the account ids are exactly those seeded by
`init()`: `A` and `B`. -/
theorem reachable_accountIds {s : FTState} (h : Reachable s) : AccountIdsAB s := by
  unfold Reachable at h
  induction h with
  | refl =>
    intro k hk
    by_cases h1 : k = "A"
    · exact Or.inl h1
    · by_cases h2 : k = "B"
      · exact Or.inr h2
      · exfalso
        simp [initState, alookup, Ne.symm h1, Ne.symm h2] at hk
  | tail hsteps hstep ih =>
    cases hstep with
    | add req now fid hfresh =>
      intro k hk
      rw [accKeys_add] at hk
      exact ih k hk
    | exec tid =>
      intro k hk
      rw [accKeys_exec] at hk
      exact ih k hk
    | tick d =>
      intro k hk
      rw [accKeys_execScheduled] at hk
      exact ih k hk

/-! Section: Claim C10: same-account submissions -/

/-- C10 counterexample, part 1: a scheduled time in the current bucket but one
second in the past (now = 1000 ms, scheduled 0 ms, same minute) is refused by
the past-time check, so "scheduled in the current bucket" alone does not make
the submission accepted.  Part 2: with an older pending transaction `t0`
(A→B, 60) sharing the current bucket, a self-transfer A→A of 60 ≤ 100 is
accepted but REJECTED, because the pass first executes `t0`, draining A to 40
before the self-transfer is validated. -/
theorem C10_counterexample :
    addTransaction initState (mkReq "A" "A" 10 0) 1000 "tP" = (initState, .error) ∧
    mateRes.2 = .ok "tSelf" ∧
    txnStatus mateRes.1 "tSelf" = some .rejected ∧
    (alookup "A" mateS1.accounts).map Account.balance = some 100 := by
  with_unfolding_all decide

/-- C10 (amended): in a reachable state, a submission with credit = debit on
an existing account, a positive amount not exceeding that account's balance,
a scheduled time in the current bucket and not in the past, a fresh non-empty
`uuidv1` id, and no other transaction pending in that bucket, is accepted;
the immediate pass executes it to COMPLETED and the account's balance is
unchanged. -/
theorem C10_self_transfer (s : FTState) (aid : String) (acct : Account) (q : Rat)
    (tms now : Int) (fid : String)
    (hreach : Reachable s)
    (hacct : alookup aid s.accounts = some acct)
    (hq : 0 < q) (hle : q ≤ acct.balance)
    (hbucket : timeStampOf tms = timeStampOf now)
    (hpast : ¬ now - tms > 0)
    (hempty : pendingIds s (timeStampOf tms) = [])
    (hfid : fid ≠ "")
    (hfresh : alookup fid s.transactions = none) :
    (addTransaction s (mkReq aid aid q tms) now fid).2 = .ok fid ∧
    txnStatus (addTransaction s (mkReq aid aid q tms) now fid).1 fid = some .completed ∧
    (alookup aid (addTransaction s (mkReq aid aid q tms) now fid).1.accounts).map
      Account.balance = some acct.balance := by
  have haid : aid ≠ "" := by
    rcases reachable_accountIds hreach aid (by simp [hacct]) with h1 | h1 <;> subst h1 <;>
      decide
  have hq0 : q ≠ 0 := ne_of_gt hq
  have hnlt : ¬ q < 0 := not_lt.mpr hq.le
  have hbal0 : ¬ acct.balance < 0 := not_lt.mpr (le_trans hq.le hle)
  have hbq : ¬ acct.balance - q < 0 := not_lt.mpr (sub_nonneg.mpr hle)
  have hempty' : (alookup (timeStampOf tms) s.pendingTransactions).getD [] = [] := hempty
  have hfp : fid ∉ (alookup (timeStampOf tms) s.pendingTransactions).getD [] := by
    rw [hempty']
    simp
  have hlookT : alookup (timeStampOf tms)
      (insertNewTxn s (mkTxnRecord tms "fund" aid aid q) fid).pendingTransactions =
      some [fid] := by
    show alookup (timeStampOf tms)
      (insertPending s.pendingTransactions (timeStampOf tms) fid) = _
    rw [insertPending_self, if_neg hfp, hempty']
    rfl
  have hrec1 : alookup fid
      (insertNewTxn s (mkTxnRecord tms "fund" aid aid q) fid).transactions =
      some (mkTxnRecord tms "fund" aid aid q) := alookup_aset_self _ _ _
  have hval1 : validateTransaction
      (insertNewTxn s (mkTxnRecord tms "fund" aid aid q) fid).accounts
      (some (mkTxnRecord tms "fund" aid aid q)) = true := by
    show validateTransaction s.accounts (some (mkTxnRecord tms "fund" aid aid q)) = true
    simp [validateTransaction, mkTxnRecord, hacct, hq0, haid, hnlt, hbal0, hbq]
  have hexecq : executeTransaction
      (insertNewTxn s (mkTxnRecord tms "fund" aid aid q) fid) fid =
      (⟨applyTransferLists
          (insertNewTxn s (mkTxnRecord tms "fund" aid aid q) fid).accounts
          (mkTxnRecord tms "fund" aid aid q) fid,
        aupdate fid (fun t => { t with status := TxStatus.completed })
          (insertNewTxn s (mkTxnRecord tms "fund" aid aid q) fid).transactions,
        aupdate (mkTxnRecord tms "fund" aid aid q).timeStamp
          (fun ids => ids.filter (· ≠ fid))
          (insertNewTxn s (mkTxnRecord tms "fund" aid aid q) fid).pendingTransactions,
        addCompleted
          (insertNewTxn s (mkTxnRecord tms "fund" aid aid q) fid).completedTransactions
          (mkTxnRecord tms "fund" aid aid q) fid⟩, .completed) := by
    unfold executeTransaction
    rw [if_neg hfid]
    simp only [hrec1]
    rw [hval1, if_neg (show ¬(true = false) by simp)]
    simp only [show (mkTxnRecord tms "fund" aid aid q).timeStamp = timeStampOf tms from rfl,
      hlookT]
  have hpassq : scheduledJobsPass
      (insertNewTxn s (mkTxnRecord tms "fund" aid aid q) fid) (timeStampOf now) =
      ((executeTransaction (insertNewTxn s (mkTxnRecord tms "fund" aid aid q) fid) fid).1,
        false) := by
    unfold scheduledJobsPass
    rw [← hbucket, hlookT]
    simp only [runJobs, hexecq]
  have hadd : addTransaction s (mkReq aid aid q tms) now fid =
      ((executeTransaction (insertNewTxn s (mkTxnRecord tms "fund" aid aid q) fid) fid).1,
        .ok fid) := by
    simp only [addTransaction, mkReq]
    rw [if_neg (by simp), if_neg (by simp [hacct]), if_neg hpast,
      if_pos hbucket.symm, hpassq]
  rw [hadd]
  refine ⟨rfl, ?_, ?_⟩
  · rw [hexecq]
    simp only [txnStatus]
    rw [alookup_aupdate_self, hrec1]
    rfl
  · rw [hexecq]
    show (alookup aid (applyTransferLists
        (insertNewTxn s (mkTxnRecord tms "fund" aid aid q) fid).accounts
        (mkTxnRecord tms "fund" aid aid q) fid)).map Account.balance = some acct.balance
    have hca1 : alookup (mkTxnRecord tms "fund" aid aid q).credit
        (insertNewTxn s (mkTxnRecord tms "fund" aid aid q) fid).accounts = some acct := hacct
    exact applyTransferLists_self rfl hca1

/-- Witness for C10 (amended): from the initial state, a self-transfer on `A`
of amount 10 at time 0 (now = 0) is accepted, completes, and leaves `A`'s
balance at 100. -/
theorem C10_self_transfer_witness :
    selfOkRes.2 = .ok "tS" ∧
    txnStatus selfOkRes.1 "tS" = some .completed ∧
    (alookup "A" selfOkRes.1.accounts).map Account.balance = some accA100.balance :=
  C10_self_transfer initState "A" accA100 10 0 0 "tS" Relation.ReflTransGen.refl
    (by with_unfolding_all decide) (by with_unfolding_all decide)
    (by with_unfolding_all decide) rfl (by with_unfolding_all decide) rfl
    (by with_unfolding_all decide) (by with_unfolding_all decide)
